import Mathlib

/-!
# Verification of the live order-book engine (`polymarket_api/live_orderbook.py`)

Shallow embedding of the streaming order-book reconciliation engine:
JSON values, the decimal conversion helpers (`_to_decimal`, `_price_key`),
the side-map construction of `_apply_book_snapshot`, the delta application
of `_apply_price_change`, the frame classification and dispatch loop of
`stream_market_orderbook`, the read accessors (`_levels_desc`,
`_levels_asc`, spread/mid derivation of `_build_outcome_panel`) and the
reconnect backoff policy.

Modelling conventions:
* Python `Decimal` values are rationals (`ℚ`).  The special values
  `NaN`/`Infinity`, which the `Decimal` constructor also accepts, are not
  representable in `ℚ` and are outside the model (the wire protocol only
  carries finite numerals), as is `Decimal`'s signed zero.
* Python dicts are association lists with unique keys; assignment to an
  existing key replaces the value in place, a new key is appended.
* A raw websocket frame is modelled by its JSON parse result
  (`Option JVal`, `none` = `json.loads` raised `JSONDecodeError`).
-/

namespace Polymarket

/-- JSON values as produced by `json.loads`. -/
inductive JVal where
  | jnull : JVal
  | jbool : Bool → JVal
  | jnum : ℚ → JVal
  | jstr : String → JVal
  | jlist : List JVal → JVal
  | jobj : List (String × JVal) → JVal

/-- The fields of a JSON object (a Python dict). -/
abbrev Fields := List (String × JVal)

/-- `d.get(key)`: the value stored under `key`, `None` if absent. -/
def getField : Fields → String → JVal
  | [], _ => .jnull
  | (k, v) :: fs, key => if k = key then v else getField fs key

/-- `key in d`: key membership, regardless of the stored value. -/
def hasField : Fields → String → Bool
  | [], _ => false
  | (k, _) :: fs, key => k = key || hasField fs key

/-- Python truthiness of a JSON value. -/
def truthy : JVal → Bool
  | .jnull => false
  | .jbool b => b
  | .jnum q => q ≠ 0
  | .jstr s => s ≠ ""
  | .jlist xs => !xs.isEmpty
  | .jobj fs => !fs.isEmpty

/-- Python `a or b` (value-returning, truthiness-based). -/
def pyOr (a b : JVal) : JVal := if truthy a then a else b

/-- `v = .jnull` as a Boolean (`value is None` in Python). -/
def isNull : JVal → Bool
  | .jnull => true
  | _ => false

/-- Python `str(value)`, for the value shapes the protocol exercises
(strings, `None`, booleans, numbers).  For a number the decimal numeral is
produced (integers exactly; the container cases are placeholders, the code
only ever applies `str` to identifier and event-type fields). -/
def pyStr : JVal → String
  | .jnull => "None"
  | .jbool true => "True"
  | .jbool false => "False"
  | .jstr s => s
  | .jnum q => if q.den = 1 then toString q.num else toString q
  | .jlist _ => "[...]"
  | .jobj _ => "{...}"

/-- Digit string to natural number (most significant first). -/
def digitsToNat (ds : List Char) : ℕ :=
  ds.foldl (fun n c => 10 * n + (c.toNat - 48)) 0

/-- Strip leading and trailing whitespace (`str.strip` as performed by the
`Decimal` constructor). -/
def stripWs (cs : List Char) : List Char :=
  ((cs.dropWhile Char.isWhitespace).reverse.dropWhile Char.isWhitespace).reverse

/-- Exponent suffix of a `Decimal` numeral: optional sign then digits;
scales the already-parsed mantissa `m`. -/
def parseExp (m : ℚ) (cs : List Char) : Option ℚ :=
  let p := match cs with
    | '-' :: rest => (true, rest)
    | '+' :: rest => (false, rest)
    | _ => (false, cs)
  let ds := p.2.takeWhile Char.isDigit
  let rest := p.2.dropWhile Char.isDigit
  if ds.isEmpty || !rest.isEmpty then none
  else some (if p.1 then m / 10 ^ digitsToNat ds else m * 10 ^ digitsToNat ds)

/-- The finite-numeral fragment of Python's `Decimal(string)` constructor:
optional surrounding whitespace, underscores removed, optional sign,
integer digits and/or fractional digits, optional exponent.  `none` when
the constructor would raise `InvalidOperation`. -/
def parseDec (s : String) : Option ℚ :=
  let cs0 := (stripWs s.toList).filter (fun c => c ≠ '_')
  let sp : ℚ × List Char := match cs0 with
    | '-' :: rest => (-1, rest)
    | '+' :: rest => (1, rest)
    | _ => (1, cs0)
  let sgn := sp.1
  let intPart := sp.2.takeWhile Char.isDigit
  let rest := sp.2.dropWhile Char.isDigit
  match rest with
  | [] => if intPart.isEmpty then none else some (sgn * digitsToNat intPart)
  | '.' :: rest2 =>
    let fracPart := rest2.takeWhile Char.isDigit
    let rest3 := rest2.dropWhile Char.isDigit
    if intPart.isEmpty && fracPart.isEmpty then none
    else
      let mant : ℚ := (digitsToNat intPart : ℚ) +
        (digitsToNat fracPart : ℚ) / (10 ^ fracPart.length)
      match rest3 with
      | [] => some (sgn * mant)
      | e :: rest4 =>
        if e = 'e' || e = 'E' then parseExp (sgn * mant) rest4 else none
  | e :: rest2 =>
    if (e = 'e' || e = 'E') && !intPart.isEmpty then
      parseExp (sgn * (digitsToNat intPart : ℚ)) rest2
    else none

/-- `_to_decimal(value)`: `Decimal(str(value))`, with every parse failure
(`InvalidOperation`, `ValueError`, `TypeError`) caught and mapped to the
default `Decimal("0")`.  `str` of `None`/booleans/containers is not a
numeral, so those all map to 0. -/
def to_decimal : JVal → ℚ
  | .jnum q => q
  | .jstr s => (parseDec s).getD 0
  | _ => 0

/-- `_to_decimal` applied to a string (used for map keys). -/
def toDecimalStr (s : String) : ℚ := to_decimal (.jstr s)

/-- Floor of a rational as an integer (flooring division of numerator by
denominator; the denominator is positive). -/
def ratFloorZ (q : ℚ) : ℤ := Int.fdiv q.num q.den

/-- Round a rational to the nearest integer, ties to even
(`Decimal.quantize`'s default `ROUND_HALF_EVEN`). -/
def rndHalfEven (q : ℚ) : ℤ :=
  let f := ratFloorZ q
  if q - f < 1 / 2 then f
  else if q - f > 1 / 2 then f + 1
  else if 2 ∣ f then f else f + 1

/-- The integer of ten-thousandths underlying the canonical price key:
`Decimal.quantize(Decimal("0.0001"))`. -/
def priceKeyZ (q : ℚ) : ℤ := rndHalfEven (q * 10000)

/-- Zero-padded fixed-width decimal digits of `n` (4 fractional digits). -/
def pad4 (n : ℕ) : String :=
  let s := toString n
  String.mk (List.replicate (4 - s.length) '0') ++ s

/-- `format(d, "f")` for a `Decimal` with exponent −4 given as the scaled
integer `z`: sign, integral digits, dot, exactly four fractional digits. -/
def keyString (z : ℤ) : String :=
  (if z < 0 then "-" else "") ++ toString (z.natAbs / 10000) ++ "." ++ pad4 (z.natAbs % 10000)

/-- `_price_key` on an already-decoded price:
`format(_to_decimal(value).quantize(Decimal("0.0001")), "f")`. -/
def priceKey (q : ℚ) : String := keyString (priceKeyZ q)

/-- Rounding a price to the fixed 4-digit precision (the numeric value of
`quantize(Decimal("0.0001"))`); spec-side description of "numerically
equal after rounding". -/
def rnd4 (q : ℚ) : ℚ := (priceKeyZ q : ℚ) / 10000

/-- A side of a book: Python dict from canonical price key to size. -/
abbrev SideMap := List (String × ℚ)

/-- Dict lookup (`d[k]` / `k in d`): first binding for the key. -/
def lookupKV {α : Type} : List (String × α) → String → Option α
  | [], _ => none
  | (k, v) :: rest, key => if k = key then some v else lookupKV rest key

/-- Dict assignment `d[k] = v`: replace in place if the key exists,
append at the end otherwise. -/
def insertKV {α : Type} : List (String × α) → String → α → List (String × α)
  | [], k, v => [(k, v)]
  | (k2, v2) :: rest, k, v =>
    if k2 = k then (k2, v) :: rest else (k2, v2) :: insertKV rest k v

/-- `_iter_levels`: keep only the dict elements of a list value; anything
that is not a list yields no levels. -/
def iterLevels : JVal → List Fields
  | .jlist xs => xs.filterMap (fun v => match v with | .jobj fs => some fs | _ => none)
  | _ => []

/-- One loop iteration of the snapshot side builder: parse price and size,
keep the level only when its parsed size is strictly positive, keyed by
the canonical price key. -/
def snapLevelStep (m : SideMap) (lvl : Fields) : SideMap :=
  let price := to_decimal (getField lvl "price")
  let size := to_decimal (getField lvl "size")
  if 0 < size then insertKV m (priceKey price) size else m

/-- Build a fresh side map from the level dicts of one side list. -/
def buildSide (levels : List Fields) : SideMap :=
  levels.foldl snapLevelStep []

/-- Per-instrument order-book state. -/
structure BookState where
  bids : SideMap
  asks : SideMap
  best_bid : Option ℚ
  best_ask : Option ℚ
deriving DecidableEq, Repr

/-- The side lists a snapshot frame supplies:
`msg.get("bids") or msg.get("buys")` and the ask analogue. -/
def snapshotBidLevels (msg : Fields) : List Fields :=
  iterLevels (pyOr (getField msg "bids") (getField msg "buys"))

/-- Ask side list of a snapshot frame. -/
def snapshotAskLevels (msg : Fields) : List Fields :=
  iterLevels (pyOr (getField msg "asks") (getField msg "sells"))

/-- The parsed prices of a side map's keys
(`_to_decimal(p) for p in map`). -/
def keyPrices (m : SideMap) : List ℚ := m.map (fun kv => toDecimalStr kv.1)

/-- `max(...)` over a nonempty list, `none` on the empty list. -/
def listMax : List ℚ → Option ℚ
  | [] => none
  | x :: xs => some (xs.foldl max x)

/-- `min(...)` over a nonempty list, `none` on the empty list. -/
def listMin : List ℚ → Option ℚ
  | [] => none
  | x :: xs => some (xs.foldl min x)

/-- `_apply_book_snapshot`: rebuild both side maps from the frame, assign
both wholesale, then recompute each best price only from a nonempty new
map (an empty new map leaves the stored best price as it was). -/
def apply_book_snapshot (st : BookState) (msg : Fields) : BookState :=
  let bids_map := buildSide (snapshotBidLevels msg)
  let asks_map := buildSide (snapshotAskLevels msg)
  { bids := bids_map
    asks := asks_map
    best_bid := match listMax (keyPrices bids_map) with
      | some q => some q
      | none => st.best_bid
    best_ask := match listMin (keyPrices asks_map) with
      | some q => some q
      | none => st.best_ask }

/-- The tracked books: dict from token id to its `BookState`. -/
abbrev Books := List (String × BookState)

/-- `str(item.get("asset_id") or "")`. -/
def tokenOf (item : Fields) : String :=
  pyStr (pyOr (getField item "asset_id") (.jstr ""))

/-- One `price_changes` record of `_apply_price_change`: skip untracked
tokens; otherwise overwrite `best_bid` / `best_ask` from whichever of the
two fields is present (not `None`), reporting whether anything changed. -/
def apply_price_change_item (books : Books) (item : Fields) : Books × Bool :=
  let token_id := tokenOf item
  match lookupKV books token_id with
  | none => (books, false)
  | some st =>
    let bbRaw := getField item "best_bid"
    let baRaw := getField item "best_ask"
    let st1 := if isNull bbRaw then st else { st with best_bid := some (to_decimal bbRaw) }
    let st2 := if isNull baRaw then st1 else { st1 with best_ask := some (to_decimal baRaw) }
    (insertKV books token_id st2, !isNull bbRaw || !isNull baRaw)

/-- `_apply_price_change`: fold the record loop over
`_iter_levels(msg.get("price_changes"))`, OR-ing the changed flags. -/
def apply_price_change (books : Books) (msg : Fields) : Books × Bool :=
  (iterLevels (getField msg "price_changes")).foldl
    (fun acc item =>
      let r := apply_price_change_item acc.1 item
      (r.1, acc.2 || r.2))
    (books, false)

/-- The decoder's classification of one object. -/
inductive MsgClass where
  | snapshot : MsgClass
  | delta : MsgClass
  | ignored : MsgClass
deriving DecidableEq, Repr

/-- `str(msg.get("event_type") or "")`. -/
def eventTypeOf (msg : Fields) : String :=
  pyStr (pyOr (getField msg "event_type") (.jstr ""))

/-- The dispatch conditions of the message loop: `event_type == "book"` or
(`"asset_id" in msg` and (`"bids" in msg` or `"asks" in msg`)) selects the
snapshot branch; `event_type == "price_change"` the delta branch. -/
def classify (msg : Fields) : MsgClass :=
  if eventTypeOf msg = "book" ||
      (hasField msg "asset_id" && (hasField msg "bids" || hasField msg "asks")) then
    .snapshot
  else if eventTypeOf msg = "price_change" then
    .delta
  else
    .ignored

/-- Processing of one decoded object in the message loop: snapshot frames
for a tracked token are applied and flagged as a change; delta frames go
through `apply_price_change`; everything else is skipped. -/
def processMsg (books : Books) (msg : Fields) : Books × Bool :=
  match classify msg with
  | .snapshot =>
    let token_id := tokenOf msg
    match lookupKV books token_id with
    | some st => (insertKV books token_id (apply_book_snapshot st msg), true)
    | none => (books, false)
  | .delta => apply_price_change books msg
  | .ignored => (books, false)

/-- The objects a decoded payload contributes: dict elements of a list,
a single dict as a singleton, anything else nothing. -/
def payloadItems : JVal → List Fields
  | .jlist xs => xs.filterMap (fun v => match v with | .jobj fs => some fs | _ => none)
  | .jobj fs => [fs]
  | _ => []

/-- Processing of one successfully parsed frame: every object in array
order, threading the books and OR-ing the changed flags. -/
def processPayload (books : Books) (payload : JVal) : Books × Bool :=
  (payloadItems payload).foldl
    (fun acc m =>
      let r := processMsg acc.1 m
      (r.1, acc.2 || r.2))
    (books, false)

/-- The exceptions the receive loop can raise. -/
inductive StreamExc where
  | jsonDecodeError : StreamExc
  | connectionClosed : StreamExc
  | osError : StreamExc
  | timeoutError : StreamExc
deriving DecidableEq, Repr

/-- Which exceptions the reconnect handler
(`except (ConnectionClosed, OSError, TimeoutError)`) catches.
`json.JSONDecodeError` is a `ValueError`, none of the three. -/
def caughtByReconnectHandler : StreamExc → Bool
  | .connectionClosed => true
  | .osError => true
  | .timeoutError => true
  | .jsonDecodeError => false

/-- One receive-loop step on a raw frame, given as its JSON parse result:
an unparsable frame raises `JSONDecodeError`; a parsed one is processed. -/
def processFrame (books : Books) (frame : Option JVal) : Except StreamExc (Books × Bool) :=
  match frame with
  | none => .error .jsonDecodeError
  | some payload => .ok (processPayload books payload)

/-- The receive loop over a finite frame sequence: the first raised
exception aborts the loop and propagates. -/
def runFrames (books : Books) : List (Option JVal) → Except StreamExc Books
  | [] => .ok books
  | f :: fs =>
    match processFrame books f with
    | .error e => .error e
    | .ok r => runFrames r.1 fs

/-- The initial per-instrument state: empty sides, no best prices. -/
def emptyBook : BookState :=
  { bids := [], asks := [], best_bid := none, best_ask := none }

/-- The books dict created before the stream starts. -/
def initBooks (token_ids : List String) : Books :=
  token_ids.map (fun t => (t, emptyBook))

/-- One outer-loop iteration of the reconnect machine, as a function of
the current `reconnect_delay` and of whether the iteration reached
Streaming (successful connect plus successful subscription send, which
resets the delay to 1.0) before its transport failure.  Returns the delay
slept in the `except` branch and the next `reconnect_delay`
(`min(30.0, delay * 2.0)`). -/
def backoffStep (delay : ℚ) (reachedStreaming : Bool) : ℚ × ℚ :=
  let d := if reachedStreaming then 1 else delay
  (d, min 30 (2 * d))

/-- Observed sleep delays along a sequence of iterations. -/
def backoffDelays (delay : ℚ) : List Bool → List ℚ
  | [] => []
  | r :: rs =>
    let s := backoffStep delay r
    s.1 :: backoffDelays s.2 rs

/-- Bids-before-asks ordering on display rows: descending parsed price
(`sort(key=price, reverse=True)`, stable). -/
def descRel (a b : ℚ × ℚ) : Prop := b.1 ≤ a.1

/-- Ascending parsed price (`sort(key=price)`, stable). -/
def ascRel (a b : ℚ × ℚ) : Prop := a.1 ≤ b.1

instance : DecidableRel descRel := fun a b => inferInstanceAs (Decidable (b.1 ≤ a.1))

instance : DecidableRel ascRel := fun a b => inferInstanceAs (Decidable (a.1 ≤ b.1))

instance : IsTotal (ℚ × ℚ) descRel := ⟨fun a b => le_total b.1 a.1⟩

instance : IsTotal (ℚ × ℚ) ascRel := ⟨fun a b => le_total a.1 b.1⟩

instance : IsTrans (ℚ × ℚ) descRel := ⟨fun _ _ _ h1 h2 => le_trans h2 h1⟩

instance : IsTrans (ℚ × ℚ) ascRel := ⟨fun _ _ _ h1 h2 => le_trans h1 h2⟩

/-- The row comprehension shared by `_levels_desc` / `_levels_asc`:
`(to_decimal(price), size)` for the entries with positive size. -/
def posRows (m : SideMap) : List (ℚ × ℚ) :=
  m.filterMap (fun kv => if 0 < kv.2 then some (toDecimalStr kv.1, kv.2) else none)

/-- `_levels_desc`: positive-size rows, stably sorted by descending parsed
price, truncated to `depth`. -/
def levels_desc (m : SideMap) (depth : ℕ) : List (ℚ × ℚ) :=
  (List.insertionSort descRel (posRows m)).take depth

/-- `_levels_asc`: positive-size rows, stably sorted by ascending parsed
price, truncated to `depth`. -/
def levels_asc (m : SideMap) (depth : ℕ) : List (ℚ × ℚ) :=
  (List.insertionSort ascRel (posRows m)).take depth

/-- The spread/mid derivation of `_build_outcome_panel`: produced only
when both best prices are present and `best_ask >= best_bid`; the pair is
(spread, mid) scaled to cents. -/
def spread_mid (st : BookState) : Option (ℚ × ℚ) :=
  match st.best_bid, st.best_ask with
  | some bb, some ba =>
    if bb ≤ ba then some ((ba - bb) * 100, ((ba + bb) / 2) * 100) else none
  | _, _ => none

/-- All sizes stored in a book state's side maps are strictly positive. -/
def sizesPos (st : BookState) : Prop :=
  (∀ kv ∈ st.bids, 0 < kv.2) ∧ (∀ kv ∈ st.asks, 0 < kv.2)

/-- The data-model invariant over the whole books dict. -/
def booksInv (books : Books) : Prop :=
  ∀ tid st, lookupKV books tid = some st → sizesPos st

/-- A snapshot level dict with already-decoded numeric fields. -/
def mkLevel (p s : ℚ) : Fields :=
  [("price", .jnum p), ("size", .jnum s)]

/-- A snapshot level dict with string-encoded fields, as on the wire. -/
def strLevel (p s : String) : Fields :=
  [("price", .jstr p), ("size", .jstr s)]

/-- The snapshot frame of the spec's worked example: bids 0.45×10 and
0.40×0, asks 0.55×5, for instrument `X`. -/
def exSnapshotMsg : Fields :=
  [("event_type", .jstr "book"), ("asset_id", .jstr "X"),
   ("bids", .jlist [.jobj (strLevel "0.45" "10"), .jobj (strLevel "0.40" "0")]),
   ("asks", .jlist [.jobj (strLevel "0.55" "5")])]

/-- The delta frame of the spec's worked example: best_bid moves to 0.46. -/
def exDeltaMsg : Fields :=
  [("event_type", .jstr "price_change"),
   ("price_changes", .jlist [.jobj [("asset_id", .jstr "X"), ("best_bid", .jstr "0.46")]])]

/-- The worked example's frame sequence. -/
def exFrames : List (Option JVal) :=
  [some (.jobj exSnapshotMsg), some (.jobj exDeltaMsg)]

/-- Book state after the worked example's snapshot. -/
def exStateSnap : BookState :=
  { bids := [("0.4500", 10)], asks := [("0.5500", 5)],
    best_bid := some (9/20), best_ask := some (11/20) }

/-- Book state after the worked example's snapshot plus delta. -/
def exStateDelta : BookState :=
  { bids := [("0.4500", 10)], asks := [("0.5500", 5)],
    best_bid := some (23/50), best_ask := some (11/20) }

/-- Books dict after the worked example's two frames. -/
def exBooksRun : Books := [("X", exStateDelta)]

/-- A prior state with a nonempty ask side (for the one-sided-frame
counterexample). -/
def exStateC2 : BookState :=
  { bids := [("0.4000", 3)], asks := [("0.5500", 5)],
    best_bid := some (2/5), best_ask := some (11/20) }

/-- A snapshot frame carrying only a bids list. -/
def exMsgBidsOnly : Fields :=
  [("asset_id", .jstr "X"),
   ("bids", .jlist [.jobj (strLevel "0.45" "10")])]

/-- An object with an instrument id and only a `buys` list, no event
type. -/
def exMsgBuysOnly : Fields :=
  [("asset_id", .jstr "X"),
   ("buys", .jlist [.jobj (strLevel "0.45" "10")])]

/-- The delta record of the worked example. -/
def exDeltaItem : Fields :=
  [("asset_id", .jstr "X"), ("best_bid", .jstr "0.46")]

/-- A delta record naming an untracked instrument. -/
def exDeltaItemUntracked : Fields :=
  [("asset_id", .jstr "Y"), ("best_bid", .jstr "0.99")]

/-- A two-level side map for read-accessor checks. -/
def exMapC9 : SideMap := [("0.5500", 5), ("0.4500", 10)]

/-! ## Association-list lemmas (Python dict semantics) -/

theorem lookupKV_insertKV_self {α : Type} (m : List (String × α)) (k : String) (v : α) :
    lookupKV (insertKV m k v) k = some v := by
  induction m with
  | nil => simp [insertKV, lookupKV]
  | cons kv rest ih =>
    obtain ⟨k2, v2⟩ := kv
    by_cases h : k2 = k
    · simp [insertKV, lookupKV, h]
    · simp [insertKV, lookupKV, h, ih]

theorem lookupKV_insertKV_ne {α : Type} (m : List (String × α)) (k k' : String) (v : α)
    (h : k' ≠ k) : lookupKV (insertKV m k v) k' = lookupKV m k' := by
  induction m with
  | nil => simp [insertKV, lookupKV, Ne.symm h]
  | cons kv rest ih =>
    obtain ⟨k2, v2⟩ := kv
    by_cases hk : k2 = k
    · subst hk
      simp [insertKV, lookupKV, Ne.symm h]
    · simp [insertKV, lookupKV, hk, ih]

theorem insertKV_eq_self {α : Type} {m : List (String × α)} {k : String} {v : α}
    (h : lookupKV m k = some v) : insertKV m k v = m := by
  induction m with
  | nil => simp [lookupKV] at h
  | cons kv rest ih =>
    obtain ⟨k2, v2⟩ := kv
    by_cases hk : k2 = k
    · simp only [lookupKV, if_pos hk, Option.some.injEq] at h
      simp [insertKV, hk, h]
    · simp only [lookupKV, if_neg hk] at h
      simp [insertKV, hk, ih h]

theorem mem_insertKV {α : Type} {m : List (String × α)} {k : String} {v : α} {x : String × α}
    (h : x ∈ insertKV m k v) : x ∈ m ∨ x = (k, v) := by
  induction m with
  | nil => exact Or.inr (by simpa [insertKV] using h)
  | cons kv rest ih =>
    obtain ⟨k2, v2⟩ := kv
    by_cases hk : k2 = k
    · subst hk
      simp only [insertKV, if_true, eq_self_iff_true, ite_true, List.mem_cons] at h
      rcases h with h1 | h1
      · exact Or.inr h1
      · exact Or.inl (List.mem_cons_of_mem _ h1)
    · simp only [insertKV, if_neg hk, List.mem_cons] at h
      rcases h with h | h
      · exact Or.inl (by simp [h])
      · rcases ih h with h2 | h2
        · exact Or.inl (List.mem_cons_of_mem _ h2)
        · exact Or.inr h2

theorem getField_of_not_hasField {m : Fields} {k : String} (h : hasField m k = false) :
    getField m k = .jnull := by
  induction m with
  | nil => rfl
  | cons kv rest ih =>
    obtain ⟨k2, v2⟩ := kv
    simp only [hasField, Bool.or_eq_false_iff, decide_eq_false_iff_not] at h
    simp [getField, h.1, ih h.2]

theorem lookupKV_initBooks {token_ids : List String} {tid : String} {st : BookState}
    (h : lookupKV (initBooks token_ids) tid = some st) : st = emptyBook := by
  induction token_ids with
  | nil => simp [initBooks, lookupKV] at h
  | cons t ts ih =>
    by_cases ht : t = tid
    · simp only [initBooks, List.map, lookupKV, if_pos ht, Option.some.injEq] at h
      exact h.symm
    · simp only [initBooks, List.map, lookupKV, if_neg ht] at h
      exact ih h

/-! ## Side-map construction lemmas -/

theorem pos_of_mem_foldl_snapLevelStep {lvls : List Fields} {m : SideMap}
    (hm : ∀ kv ∈ m, 0 < kv.2) :
    ∀ kv ∈ List.foldl snapLevelStep m lvls, 0 < kv.2 := by
  induction lvls generalizing m with
  | nil => simpa using hm
  | cons lvl rest ih =>
    intro kv hkv
    simp only [List.foldl] at hkv
    refine ih (m := snapLevelStep m lvl) ?_ kv hkv
    intro kv2 hkv2
    unfold snapLevelStep at hkv2
    by_cases hs : 0 < to_decimal (getField lvl "size")
    · simp only [if_pos hs] at hkv2
      rcases mem_insertKV hkv2 with h | h
      · exact hm kv2 h
      · rw [h]; exact hs
    · simp only [if_neg hs] at hkv2
      exact hm kv2 hkv2

theorem pos_of_mem_buildSide {lvls : List Fields} :
    ∀ kv ∈ buildSide lvls, 0 < kv.2 :=
  pos_of_mem_foldl_snapLevelStep (by simp)

/-! ## Fold max / min lemmas -/

theorem foldl_max_mem (x : ℚ) (xs : List ℚ) : xs.foldl max x ∈ x :: xs := by
  induction xs generalizing x with
  | nil => simp [List.foldl]
  | cons y ys ih =>
    have hstep : (y :: ys).foldl max x = ys.foldl max (max x y) := rfl
    rw [hstep]
    rcases List.mem_cons.mp (ih (max x y)) with h | h
    · rcases max_choice x y with hm | hm
      · exact List.mem_cons.mpr (Or.inl (h.trans hm))
      · exact List.mem_cons.mpr (Or.inr (List.mem_cons.mpr (Or.inl (h.trans hm))))
    · exact List.mem_cons.mpr (Or.inr (List.mem_cons.mpr (Or.inr h)))

theorem le_foldl_max (x : ℚ) (xs : List ℚ) : ∀ y ∈ x :: xs, y ≤ xs.foldl max x := by
  induction xs generalizing x with
  | nil =>
    intro y hy
    simp only [List.mem_singleton] at hy
    simp [hy, List.foldl]
  | cons z zs ih =>
    intro y hy
    have hstep : (z :: zs).foldl max x = zs.foldl max (max x z) := rfl
    rw [hstep]
    have hbase : max x z ≤ zs.foldl max (max x z) :=
      ih (max x z) (max x z) (List.mem_cons_self _ _)
    rcases List.mem_cons.mp hy with h | h
    · exact le_trans (h ▸ le_max_left x z) hbase
    · rcases List.mem_cons.mp h with h2 | h2
      · exact le_trans (h2 ▸ le_max_right x z) hbase
      · exact ih (max x z) y (List.mem_cons_of_mem _ h2)

theorem foldl_min_mem (x : ℚ) (xs : List ℚ) : xs.foldl min x ∈ x :: xs := by
  induction xs generalizing x with
  | nil => simp [List.foldl]
  | cons y ys ih =>
    have hstep : (y :: ys).foldl min x = ys.foldl min (min x y) := rfl
    rw [hstep]
    rcases List.mem_cons.mp (ih (min x y)) with h | h
    · rcases min_choice x y with hm | hm
      · exact List.mem_cons.mpr (Or.inl (h.trans hm))
      · exact List.mem_cons.mpr (Or.inr (List.mem_cons.mpr (Or.inl (h.trans hm))))
    · exact List.mem_cons.mpr (Or.inr (List.mem_cons.mpr (Or.inr h)))

theorem foldl_min_le (x : ℚ) (xs : List ℚ) : ∀ y ∈ x :: xs, xs.foldl min x ≤ y := by
  induction xs generalizing x with
  | nil =>
    intro y hy
    simp only [List.mem_singleton] at hy
    simp [hy, List.foldl]
  | cons z zs ih =>
    intro y hy
    have hstep : (z :: zs).foldl min x = zs.foldl min (min x z) := rfl
    rw [hstep]
    have hbase : zs.foldl min (min x z) ≤ min x z :=
      ih (min x z) (min x z) (List.mem_cons_self _ _)
    rcases List.mem_cons.mp hy with h | h
    · exact le_trans hbase (h ▸ min_le_left x z)
    · rcases List.mem_cons.mp h with h2 | h2
      · exact le_trans hbase (h2 ▸ min_le_right x z)
      · exact ih (min x z) y (List.mem_cons_of_mem _ h2)

theorem listMax_spec {l : List ℚ} {q : ℚ} (h : listMax l = some q) :
    q ∈ l ∧ ∀ p ∈ l, p ≤ q := by
  cases l with
  | nil => simp [listMax] at h
  | cons x xs =>
    simp only [listMax, Option.some.injEq] at h
    subst h
    exact ⟨foldl_max_mem x xs, le_foldl_max x xs⟩

theorem listMin_spec {l : List ℚ} {q : ℚ} (h : listMin l = some q) :
    q ∈ l ∧ ∀ p ∈ l, q ≤ p := by
  cases l with
  | nil => simp [listMin] at h
  | cons x xs =>
    simp only [listMin, Option.some.injEq] at h
    subst h
    exact ⟨foldl_min_mem x xs, foldl_min_le x xs⟩

theorem listMax_eq_none {l : List ℚ} (h : l = []) : listMax l = none := by
  subst h; rfl

theorem listMin_eq_none {l : List ℚ} (h : l = []) : listMin l = none := by
  subst h; rfl

theorem listMax_none_iff {l : List ℚ} : listMax l = none ↔ l = [] := by
  cases l <;> simp [listMax]

theorem listMin_none_iff {l : List ℚ} : listMin l = none ↔ l = [] := by
  cases l <;> simp [listMin]

theorem keyPrices_eq_nil_iff {m : SideMap} : keyPrices m = [] ↔ m = [] := by
  simp [keyPrices]

/-! ## Snapshot application lemmas -/

theorem apply_book_snapshot_bids (st : BookState) (msg : Fields) :
    (apply_book_snapshot st msg).bids = buildSide (snapshotBidLevels msg) := rfl

theorem apply_book_snapshot_asks (st : BookState) (msg : Fields) :
    (apply_book_snapshot st msg).asks = buildSide (snapshotAskLevels msg) := rfl

theorem sizesPos_apply_book_snapshot (st : BookState) (msg : Fields) :
    sizesPos (apply_book_snapshot st msg) :=
  ⟨fun kv hkv => pos_of_mem_buildSide kv hkv, fun kv hkv => pos_of_mem_buildSide kv hkv⟩

/-! ## Price-change (delta) lemmas -/

theorem apply_price_change_item_untracked {books : Books} {item : Fields}
    (h : lookupKV books (tokenOf item) = none) :
    apply_price_change_item books item = (books, false) := by
  simp [apply_price_change_item, h]

theorem apply_price_change_item_tracked {books : Books} {item : Fields} {st : BookState}
    (h : lookupKV books (tokenOf item) = some st) :
    apply_price_change_item books item =
      (insertKV books (tokenOf item)
        { st with
          best_bid := if isNull (getField item "best_bid") then st.best_bid
            else some (to_decimal (getField item "best_bid"))
          best_ask := if isNull (getField item "best_ask") then st.best_ask
            else some (to_decimal (getField item "best_ask")) },
       !isNull (getField item "best_bid") || !isNull (getField item "best_ask")) := by
  simp only [apply_price_change_item, h]
  by_cases hb : isNull (getField item "best_bid") <;>
    by_cases ha : isNull (getField item "best_ask") <;>
    simp [hb, ha]

theorem apply_price_change_item_maps {books : Books} {item : Fields} {tid : String}
    {st' : BookState}
    (h : lookupKV (apply_price_change_item books item).1 tid = some st') :
    ∃ st, lookupKV books tid = some st ∧ st'.bids = st.bids ∧ st'.asks = st.asks := by
  cases hlk : lookupKV books (tokenOf item) with
  | none =>
    rw [apply_price_change_item_untracked hlk] at h
    exact ⟨st', h, rfl, rfl⟩
  | some st =>
    rw [apply_price_change_item_tracked hlk] at h
    by_cases ht : tid = tokenOf item
    · subst ht
      rw [lookupKV_insertKV_self] at h
      have h2 := (Option.some.inj h).symm
      subst h2
      exact ⟨st, hlk, rfl, rfl⟩
    · rw [lookupKV_insertKV_ne _ _ _ _ ht] at h
      exact ⟨st', h, rfl, rfl⟩

theorem price_change_foldl_maps (items : List Fields) :
    ∀ (acc : Books × Bool) (tid : String) (st' : BookState),
      lookupKV (items.foldl (fun acc item =>
        let r := apply_price_change_item acc.1 item
        (r.1, acc.2 || r.2)) acc).1 tid = some st' →
      ∃ st, lookupKV acc.1 tid = some st ∧ st'.bids = st.bids ∧ st'.asks = st.asks := by
  induction items with
  | nil =>
    intro acc tid st' h
    exact ⟨st', h, rfl, rfl⟩
  | cons item rest ih =>
    intro acc tid st' h
    simp only [List.foldl] at h
    obtain ⟨st1, h1, hb1, ha1⟩ := ih _ tid st' h
    obtain ⟨st0, h0, hb0, ha0⟩ := apply_price_change_item_maps h1
    exact ⟨st0, h0, hb1.trans hb0, ha1.trans ha0⟩

theorem apply_price_change_maps {books : Books} {msg : Fields} {tid : String} {st' : BookState}
    (h : lookupKV (apply_price_change books msg).1 tid = some st') :
    ∃ st, lookupKV books tid = some st ∧ st'.bids = st.bids ∧ st'.asks = st.asks := by
  unfold apply_price_change at h
  exact price_change_foldl_maps _ _ _ _ h

/-! ## Invariant preservation -/

theorem booksInv_processMsg {books : Books} (hinv : booksInv books) (msg : Fields) :
    booksInv (processMsg books msg).1 := by
  unfold processMsg
  cases classify msg with
  | snapshot =>
    cases hlk : lookupKV books (tokenOf msg) with
    | none => simp only [hlk]; exact hinv
    | some st =>
      simp only [hlk]
      intro tid st' h
      by_cases ht : tid = tokenOf msg
      · subst ht
        rw [lookupKV_insertKV_self] at h
        have h2 := (Option.some.inj h).symm
        subst h2
        exact sizesPos_apply_book_snapshot st msg
      · rw [lookupKV_insertKV_ne _ _ _ _ ht] at h
        exact hinv tid st' h
  | delta =>
    intro tid st' h
    obtain ⟨st, h0, hb, ha⟩ := apply_price_change_maps h
    have hst := hinv tid st h0
    exact ⟨hb ▸ hst.1, ha ▸ hst.2⟩
  | ignored => exact hinv

theorem booksInv_foldl_processMsg (items : List Fields) :
    ∀ acc : Books × Bool, booksInv acc.1 →
      booksInv ((items.foldl (fun acc m =>
        let r := processMsg acc.1 m
        (r.1, acc.2 || r.2)) acc).1) := by
  induction items with
  | nil => intro acc h; exact h
  | cons m rest ih =>
    intro acc h
    simp only [List.foldl]
    exact ih _ (booksInv_processMsg h m)

theorem booksInv_processPayload {books : Books} (h : booksInv books) (payload : JVal) :
    booksInv (processPayload books payload).1 := by
  unfold processPayload
  exact booksInv_foldl_processMsg _ _ h

theorem booksInv_initBooks (token_ids : List String) : booksInv (initBooks token_ids) := by
  intro tid st h
  rw [lookupKV_initBooks h]
  exact ⟨by simp [emptyBook], by simp [emptyBook]⟩

theorem booksInv_runFrames : ∀ (frames : List (Option JVal)) (books : Books),
    booksInv books → ∀ books', runFrames books frames = .ok books' → booksInv books' := by
  intro frames
  induction frames with
  | nil =>
    intro books h books' hr
    unfold runFrames at hr
    have h2 := (Except.ok.inj hr)
    exact h2 ▸ h
  | cons f fs ih =>
    intro books h books' hr
    unfold runFrames at hr
    cases f with
    | none => simp [processFrame] at hr
    | some payload =>
      simp only [processFrame] at hr
      exact ih _ (booksInv_processPayload h payload) books' hr

/-! ## Read-accessor lemmas -/

theorem apply_book_snapshot_best_bid (st : BookState) (msg : Fields) :
    (apply_book_snapshot st msg).best_bid =
      match listMax (keyPrices (buildSide (snapshotBidLevels msg))) with
      | some q => some q
      | none => st.best_bid := rfl

theorem apply_book_snapshot_best_ask (st : BookState) (msg : Fields) :
    (apply_book_snapshot st msg).best_ask =
      match listMin (keyPrices (buildSide (snapshotAskLevels msg))) with
      | some q => some q
      | none => st.best_ask := rfl

theorem pos_of_mem_posRows {m : SideMap} {r : ℚ × ℚ} (h : r ∈ posRows m) : 0 < r.2 := by
  simp only [posRows, List.mem_filterMap] at h
  obtain ⟨kv, _, hkv⟩ := h
  by_cases hp : 0 < kv.2
  · simp only [if_pos hp, Option.some.injEq] at hkv
    rw [← hkv]
    exact hp
  · simp [if_neg hp] at hkv

theorem pairwise_strict_sortDesc {l : List (ℚ × ℚ)} (hnd : (l.map Prod.fst).Nodup) :
    (List.insertionSort descRel l).Pairwise fun a b => b.1 < a.1 := by
  have hs : (List.insertionSort descRel l).Pairwise descRel :=
    List.sorted_insertionSort descRel l
  have hperm : List.Perm (List.insertionSort descRel l) l := List.perm_insertionSort descRel l
  have hnd2 : ((List.insertionSort descRel l).map Prod.fst).Nodup :=
    ((hperm.map Prod.fst).nodup_iff).mpr hnd
  have hne : (List.insertionSort descRel l).Pairwise fun a b => a.1 ≠ b.1 :=
    List.pairwise_map.mp hnd2
  exact (hs.and hne).imp fun h => lt_of_le_of_ne h.1 (Ne.symm h.2)

theorem pairwise_strict_sortAsc {l : List (ℚ × ℚ)} (hnd : (l.map Prod.fst).Nodup) :
    (List.insertionSort ascRel l).Pairwise fun a b => a.1 < b.1 := by
  have hs : (List.insertionSort ascRel l).Pairwise ascRel :=
    List.sorted_insertionSort ascRel l
  have hperm : List.Perm (List.insertionSort ascRel l) l := List.perm_insertionSort ascRel l
  have hnd2 : ((List.insertionSort ascRel l).map Prod.fst).Nodup :=
    ((hperm.map Prod.fst).nodup_iff).mpr hnd
  have hne : (List.insertionSort ascRel l).Pairwise fun a b => a.1 ≠ b.1 :=
    List.pairwise_map.mp hnd2
  exact (hs.and hne).imp fun h => lt_of_le_of_ne h.1 h.2

theorem mem_posRows_of_mem_levels_desc {m : SideMap} {d : ℕ} {r : ℚ × ℚ}
    (h : r ∈ levels_desc m d) : r ∈ posRows m := by
  have h2 : r ∈ List.insertionSort descRel (posRows m) :=
    (List.take_sublist d _).mem h
  exact (List.mem_insertionSort descRel).mp h2

theorem mem_posRows_of_mem_levels_asc {m : SideMap} {d : ℕ} {r : ℚ × ℚ}
    (h : r ∈ levels_asc m d) : r ∈ posRows m := by
  have h2 : r ∈ List.insertionSort ascRel (posRows m) :=
    (List.take_sublist d _).mem h
  exact (List.mem_insertionSort ascRel).mp h2

theorem snapLevelStep_mkLevel (m : SideMap) (p s : ℚ) :
    snapLevelStep m (mkLevel p s) = if 0 < s then insertKV m (priceKey p) s else m := rfl

/-! ## Claim theorems -/

/-- C1: the claim says an unparsable frame is discarded and processing
continues within the Streaming state.  On the code, `json.loads` raises
`JSONDecodeError` inside the receive loop, and the surrounding `except`
clause catches only `ConnectionClosed`, `OSError` and `TimeoutError`, so
the exception escapes and terminates the stream: the frame after the
malformed one is never processed, and the reconnect/backoff handler does
not run either. -/
theorem C1_malformed_json_terminates_stream :
    runFrames (initBooks ["X"]) [none, some (.jobj exSnapshotMsg)] =
      .error .jsonDecodeError
  ∧ caughtByReconnectHandler .jsonDecodeError = false :=
  ⟨rfl, rfl⟩

/-- C2 counterexample: the claim says a snapshot frame carrying only a
bids list leaves the ask-side map unchanged.  On a state with a nonempty
ask map, applying a bids-only snapshot replaces the ask map with the
empty map. -/
theorem C2_counterexample :
    ¬((apply_book_snapshot exStateC2 exMsgBidsOnly).asks = exStateC2.asks) := by
  with_unfolding_all decide

/-- C2 (amended): `_apply_book_snapshot` replaces BOTH side maps
wholesale with the freshly built maps; a side absent from the frame is
replaced by the empty map (cleared), not left unchanged — only the best
price of an empty side retains its previous value. -/
theorem C2_both_sides_replaced (st : BookState) (msg : Fields) :
    (apply_book_snapshot st msg).bids = buildSide (snapshotBidLevels msg)
  ∧ (apply_book_snapshot st msg).asks = buildSide (snapshotAskLevels msg)
  ∧ (hasField msg "asks" = false → hasField msg "sells" = false →
      (apply_book_snapshot st msg).asks = []
      ∧ (apply_book_snapshot st msg).best_ask = st.best_ask)
  ∧ (hasField msg "bids" = false → hasField msg "buys" = false →
      (apply_book_snapshot st msg).bids = []
      ∧ (apply_book_snapshot st msg).best_bid = st.best_bid) := by
  refine ⟨rfl, rfl, ?_, ?_⟩
  · intro ha hs
    have hlv : snapshotAskLevels msg = [] := by
      unfold snapshotAskLevels
      rw [getField_of_not_hasField ha, getField_of_not_hasField hs]
      rfl
    constructor
    · rw [apply_book_snapshot_asks, hlv]
      rfl
    · rw [apply_book_snapshot_best_ask, hlv]
      rfl
  · intro hb hbuys
    have hlv : snapshotBidLevels msg = [] := by
      unfold snapshotBidLevels
      rw [getField_of_not_hasField hb, getField_of_not_hasField hbuys]
      rfl
    constructor
    · rw [apply_book_snapshot_bids, hlv]
      rfl
    · rw [apply_book_snapshot_best_bid, hlv]
      rfl

/-- C2 witness: the bids-only frame clears the ask map but keeps the
stored best ask. -/
theorem C2_witness :
    hasField exMsgBidsOnly "asks" = false
  ∧ hasField exMsgBidsOnly "sells" = false
  ∧ (apply_book_snapshot exStateC2 exMsgBidsOnly).asks = []
  ∧ (apply_book_snapshot exStateC2 exMsgBidsOnly).best_ask = exStateC2.best_ask :=
  have h := (C2_both_sides_replaced exStateC2 exMsgBidsOnly).2.2.1 rfl rfl
  ⟨rfl, rfl, h.1, h.2⟩

/-- C3: after a snapshot, best_bid is the maximum parsed price of the new
bids map when that map is nonempty and is otherwise left unchanged;
best_ask is the symmetric minimum rule. -/
theorem C3_best_price_recompute (st : BookState) (msg : Fields) :
    ((apply_book_snapshot st msg).bids = [] →
      (apply_book_snapshot st msg).best_bid = st.best_bid)
  ∧ ((apply_book_snapshot st msg).bids ≠ [] →
      ∃ q, (apply_book_snapshot st msg).best_bid = some q
        ∧ q ∈ keyPrices (apply_book_snapshot st msg).bids
        ∧ ∀ p ∈ keyPrices (apply_book_snapshot st msg).bids, p ≤ q)
  ∧ ((apply_book_snapshot st msg).asks = [] →
      (apply_book_snapshot st msg).best_ask = st.best_ask)
  ∧ ((apply_book_snapshot st msg).asks ≠ [] →
      ∃ q, (apply_book_snapshot st msg).best_ask = some q
        ∧ q ∈ keyPrices (apply_book_snapshot st msg).asks
        ∧ ∀ p ∈ keyPrices (apply_book_snapshot st msg).asks, q ≤ p) := by
  refine ⟨?_, ?_, ?_, ?_⟩
  · intro hb
    rw [apply_book_snapshot_bids] at hb
    rw [apply_book_snapshot_best_bid, hb]
    rfl
  · intro hb
    rw [apply_book_snapshot_bids] at hb
    rw [apply_book_snapshot_bids]
    cases hmax : listMax (keyPrices (buildSide (snapshotBidLevels msg))) with
    | none => exact absurd (keyPrices_eq_nil_iff.mp (listMax_none_iff.mp hmax)) hb
    | some q =>
      obtain ⟨hmem, hle⟩ := listMax_spec hmax
      refine ⟨q, ?_, hmem, hle⟩
      rw [apply_book_snapshot_best_bid, hmax]
  · intro ha
    rw [apply_book_snapshot_asks] at ha
    rw [apply_book_snapshot_best_ask, ha]
    rfl
  · intro ha
    rw [apply_book_snapshot_asks] at ha
    rw [apply_book_snapshot_asks]
    cases hmin : listMin (keyPrices (buildSide (snapshotAskLevels msg))) with
    | none => exact absurd (keyPrices_eq_nil_iff.mp (listMin_none_iff.mp hmin)) ha
    | some q =>
      obtain ⟨hmem, hle⟩ := listMin_spec hmin
      refine ⟨q, ?_, hmem, hle⟩
      rw [apply_book_snapshot_best_ask, hmin]

/-- C3 witness: a bids-only snapshot on the worked-example state leaves
the ask map empty and the stored best ask untouched, while the nonempty
new bid map yields a best bid. -/
theorem C3_witness :
    (apply_book_snapshot exStateSnap exMsgBidsOnly).asks = []
  ∧ (apply_book_snapshot exStateSnap exMsgBidsOnly).best_ask = some (11/20)
  ∧ (apply_book_snapshot exStateSnap exMsgBidsOnly).bids ≠ []
  ∧ ((apply_book_snapshot exStateSnap exMsgBidsOnly).best_bid).isSome = true := by
  have ha : (apply_book_snapshot exStateSnap exMsgBidsOnly).asks = [] := by
    with_unfolding_all decide
  have hb : (apply_book_snapshot exStateSnap exMsgBidsOnly).bids ≠ [] := by
    with_unfolding_all decide
  obtain ⟨q, hq, _, _⟩ := (C3_best_price_recompute exStateSnap exMsgBidsOnly).2.1 hb
  refine ⟨ha, ?_, hb, ?_⟩
  · exact ((C3_best_price_recompute exStateSnap exMsgBidsOnly).2.2.1 ha).trans rfl
  · rw [hq]
    rfl

/-- C4 counterexample: the claim says an object with `asset_id` and only
a `buys` list is classified and applied as a snapshot.  The code's
fallback checks only for `bids`/`asks` keys, so this object is ignored
and leaves the books unchanged. -/
theorem C4_counterexample :
    classify exMsgBuysOnly = .ignored
  ∧ processMsg (initBooks ["X"]) exMsgBuysOnly = (initBooks ["X"], false) := by
  constructor
  · with_unfolding_all decide
  · with_unfolding_all decide

/-- C4 (amended): an object without event-type "book" is classified as a
snapshot exactly when it has an `asset_id` key together with a `bids` or
`asks` key; `buys`/`sells` keys do not trigger the fallback (they are
honoured only during extraction).  A snapshot-classified object naming a
tracked instrument is applied via `_apply_book_snapshot`. -/
theorem C4_amended_classification (msg : Fields) :
    (classify msg = .snapshot ↔
      (eventTypeOf msg = "book"
        ∨ (hasField msg "asset_id" = true
            ∧ (hasField msg "bids" = true ∨ hasField msg "asks" = true))))
  ∧ (∀ (books : Books) (st : BookState), classify msg = .snapshot →
      lookupKV books (tokenOf msg) = some st →
      processMsg books msg =
        (insertKV books (tokenOf msg) (apply_book_snapshot st msg), true)) := by
  constructor
  · unfold classify
    split_ifs with h1 h2
    · exact iff_of_true rfl (by simpa using h1)
    · exact iff_of_false (by decide) (by simpa using h1)
    · exact iff_of_false (by decide) (by simpa using h1)
  · intro books st hc hlk
    unfold processMsg
    rw [hc]
    simp only [hlk]

/-- C4 witness: a frame with event-type "book" is a snapshot and gets
applied to the tracked instrument's state. -/
theorem C4_witness :
    classify exSnapshotMsg = .snapshot
  ∧ processMsg [("X", emptyBook)] exSnapshotMsg =
      ([("X", apply_book_snapshot emptyBook exSnapshotMsg)], true) := by
  have hc : classify exSnapshotMsg = .snapshot :=
    (C4_amended_classification exSnapshotMsg).1.mpr (Or.inl rfl)
  refine ⟨hc, ?_⟩
  have h2 := (C4_amended_classification exSnapshotMsg).2 [("X", emptyBook)] emptyBook hc
    (by with_unfolding_all rfl)
  rw [h2]
  with_unfolding_all rfl

/-- C5: a delta record for a tracked instrument overwrites exactly the
best-price fields present in the record, never touches any side map, and
leaves other instruments alone; untracked records are no-ops. -/
theorem C5_delta_effect :
    (∀ (books : Books) (item : Fields), lookupKV books (tokenOf item) = none →
      apply_price_change_item books item = (books, false))
  ∧ (∀ (books : Books) (item : Fields) (st : BookState),
      lookupKV books (tokenOf item) = some st →
      ∃ st2, lookupKV (apply_price_change_item books item).1 (tokenOf item) = some st2
        ∧ st2.bids = st.bids ∧ st2.asks = st.asks
        ∧ (isNull (getField item "best_bid") = true → st2.best_bid = st.best_bid)
        ∧ (isNull (getField item "best_bid") = false →
            st2.best_bid = some (to_decimal (getField item "best_bid")))
        ∧ (isNull (getField item "best_ask") = true → st2.best_ask = st.best_ask)
        ∧ (isNull (getField item "best_ask") = false →
            st2.best_ask = some (to_decimal (getField item "best_ask")))
        ∧ (∀ tid, tid ≠ tokenOf item →
            lookupKV (apply_price_change_item books item).1 tid = lookupKV books tid))
  ∧ (∀ (books : Books) (msg : Fields) (tid : String) (st' : BookState),
      lookupKV (apply_price_change books msg).1 tid = some st' →
      ∃ st, lookupKV books tid = some st ∧ st'.bids = st.bids ∧ st'.asks = st.asks) := by
  refine ⟨?_, ?_, ?_⟩
  · intro books item h
    exact apply_price_change_item_untracked h
  · intro books item st h
    rw [apply_price_change_item_tracked h]
    refine ⟨_, lookupKV_insertKV_self _ _ _, rfl, rfl, ?_, ?_, ?_, ?_, ?_⟩
    · intro hb; simp [hb]
    · intro hb; simp [hb]
    · intro ha; simp [ha]
    · intro ha; simp [ha]
    · intro tid ht
      exact lookupKV_insertKV_ne _ _ _ _ ht
  · intro books msg tid st' h
    exact apply_price_change_maps h

/-- C5 witness: the worked example's delta moves best_bid to 0.46 and
leaves the maps and best_ask as they were; an untracked record is a
no-op. -/
theorem C5_witness :
    apply_price_change_item [("X", exStateSnap)] exDeltaItemUntracked =
      ([("X", exStateSnap)], false)
  ∧ (apply_price_change [("X", exStateSnap)] exDeltaMsg).1 = [("X", exStateDelta)]
  ∧ exStateDelta.bids = exStateSnap.bids
  ∧ exStateDelta.asks = exStateSnap.asks := by
  refine ⟨?_, ?_, rfl, rfl⟩
  · exact (C5_delta_effect).1 [("X", exStateSnap)] exDeltaItemUntracked
      (by with_unfolding_all rfl)
  · with_unfolding_all decide

/-- C6: every size stored in a side map of a reachable book state is
strictly positive: snapshots only insert levels whose parsed size exceeds
zero, deltas never touch the maps, and the invariant is preserved along
every run from the initial empty books. -/
theorem C6_sizes_strictly_positive :
    (∀ (st : BookState) (msg : Fields), ∀ kv ∈ (apply_book_snapshot st msg).bids, 0 < kv.2)
  ∧ (∀ (st : BookState) (msg : Fields), ∀ kv ∈ (apply_book_snapshot st msg).asks, 0 < kv.2)
  ∧ (∀ (books : Books) (msg : Fields) (tid : String) (st' : BookState),
      lookupKV (apply_price_change books msg).1 tid = some st' →
      ∃ st, lookupKV books tid = some st ∧ st'.bids = st.bids ∧ st'.asks = st.asks)
  ∧ (∀ (token_ids : List String) (frames : List (Option JVal)) (books' : Books),
      runFrames (initBooks token_ids) frames = .ok books' → booksInv books') := by
  refine ⟨?_, ?_, ?_, ?_⟩
  · intro st msg kv h
    exact pos_of_mem_buildSide kv h
  · intro st msg kv h
    exact pos_of_mem_buildSide kv h
  · intro books msg tid st' h
    exact apply_price_change_maps h
  · intro token_ids frames books' h
    exact booksInv_runFrames frames (initBooks token_ids) (booksInv_initBooks token_ids)
      books' h

/-- C6 witness: running the worked example's two frames from the initial
books yields only strictly positive stored sizes. -/
theorem C6_witness :
    runFrames (initBooks ["X"]) exFrames = .ok exBooksRun
  ∧ (0:ℚ) < 10 ∧ (0:ℚ) < 5 := by
  have hrun : runFrames (initBooks ["X"]) exFrames = .ok exBooksRun := by
    with_unfolding_all rfl
  have hinv := (C6_sizes_strictly_positive).2.2.2 ["X"] exFrames exBooksRun hrun
  have hx := hinv "X" exStateDelta (by with_unfolding_all rfl)
  exact ⟨hrun, hx.1 ("0.4500", 10) (by simp [exStateDelta]),
    hx.2 ("0.5500", 5) (by simp [exStateDelta])⟩

/-- C7: from Streaming, three consecutive transport failures sleep 1.0s,
2.0s, 4.0s; the next delay is always `min(30.0, 2 * slept delay)`; a
Streaming transition resets the slept delay to 1.0s; and delays stay
within [1.0, 30.0]. -/
theorem C7_backoff_policy :
    (∀ d : ℚ, backoffDelays d [true, false, false] = [1, 2, 4])
  ∧ (∀ (d : ℚ) (r : Bool), (backoffStep d r).2 = min 30 (2 * (backoffStep d r).1))
  ∧ (∀ d : ℚ, (backoffStep d true).1 = 1)
  ∧ (∀ (d : ℚ) (rs : List Bool), 1 ≤ d → d ≤ 30 →
      ∀ x ∈ backoffDelays d rs, 1 ≤ x ∧ x ≤ 30) := by
  refine ⟨?_, ?_, ?_, ?_⟩
  · intro d
    simp only [backoffDelays, backoffStep, if_true, if_false]
    norm_num [min_def]
  · intro d r
    rfl
  · intro d
    rfl
  · intro d rs
    induction rs generalizing d with
    | nil =>
      intro h1 h30 x hx
      simp [backoffDelays] at hx
    | cons r rest ih =>
      intro h1 h30 x hx
      simp only [backoffDelays, backoffStep, List.mem_cons] at hx
      have hobs1 : 1 ≤ (if r then (1:ℚ) else d) := by
        cases r <;> simp [h1]
      have hobs30 : (if r then (1:ℚ) else d) ≤ 30 := by
        cases r with
        | false => simpa using h30
        | true => norm_num
      rcases hx with hx | hx
      · rw [hx]
        exact ⟨hobs1, hobs30⟩
      · refine ih (min 30 (2 * if r then (1:ℚ) else d)) ?_ ?_ x hx
        · exact le_min (by norm_num) (by linarith)
        · exact min_le_left _ _

/-- C7 witness: the concrete three-failure run and the range bound at the
first failure. -/
theorem C7_witness :
    backoffDelays 1 [true, false, false] = [1, 2, 4]
  ∧ (1:ℚ) ∈ backoffDelays 1 [false]
  ∧ (1:ℚ) ≤ 1 ∧ (1:ℚ) ≤ 30 := by
  have hmem : (1:ℚ) ∈ backoffDelays 1 [false] := by
    with_unfolding_all decide
  have h4 := (C7_backoff_policy).2.2.2 1 [false] (le_refl 1) (by norm_num) 1 hmem
  exact ⟨(C7_backoff_policy).1 1, hmem, h4.1, h4.2⟩

/-- C8: prices that agree after rounding to the fixed 4-digit precision
produce the same canonical key string, and two such colliding levels in
one side list collapse to a single map entry holding the later size. -/
theorem C8_price_key_collision (p1 p2 s1 s2 : ℚ) (hp : rnd4 p1 = rnd4 p2)
    (h1 : 0 < s1) (h2 : 0 < s2) :
    priceKey p1 = priceKey p2
  ∧ buildSide [mkLevel p1 s1, mkLevel p2 s2] = [(priceKey p1, s2)] := by
  have hz : priceKeyZ p1 = priceKeyZ p2 := by
    have h := hp
    unfold rnd4 at h
    field_simp at h
    exact_mod_cast h
  have hk : priceKey p1 = priceKey p2 := by
    unfold priceKey
    rw [hz]
  refine ⟨hk, ?_⟩
  show List.foldl snapLevelStep [] [mkLevel p1 s1, mkLevel p2 s2] = [(priceKey p1, s2)]
  simp only [List.foldl]
  rw [snapLevelStep_mkLevel, snapLevelStep_mkLevel, if_pos h1, if_pos h2, hk]
  show insertKV [(priceKey p2, s1)] (priceKey p2) s2 = [(priceKey p2, s2)]
  simp [insertKV]

/-- C8 witness: "0.50" and "0.5000" decode to the same price, share the
canonical key "0.5000", and the later of two colliding levels wins. -/
theorem C8_witness :
    toDecimalStr "0.50" = 1/2
  ∧ toDecimalStr "0.5000" = 1/2
  ∧ priceKey (1/2) = "0.5000"
  ∧ buildSide [mkLevel (1/2) 10, mkLevel (1/2) 7] = [("0.5000", 7)] := by
  have hkey : priceKey (1/2) = "0.5000" := by
    with_unfolding_all rfl
  have h := C8_price_key_collision (1/2) (1/2) 10 7 rfl (by norm_num) (by norm_num)
  refine ⟨by with_unfolding_all rfl, by with_unfolding_all rfl, hkey, ?_⟩
  rw [h.2, hkey]

/-- C9: the read accessor returns bid rows strictly descending and ask
rows strictly ascending in price (given distinct parsed key prices, which
canonical keys guarantee), truncated to the requested depth, with only
positive sizes; spread/mid are derived exactly when both best prices
exist and best_ask ≥ best_bid. -/
theorem C9_read_accessor :
    (∀ (m : SideMap) (d : ℕ), ((posRows m).map Prod.fst).Nodup →
        (levels_desc m d).Pairwise (fun a b => b.1 < a.1)
      ∧ (levels_asc m d).Pairwise (fun a b => a.1 < b.1)
      ∧ (levels_desc m d).length ≤ d
      ∧ (levels_asc m d).length ≤ d
      ∧ (∀ r ∈ levels_desc m d, 0 < r.2)
      ∧ (∀ r ∈ levels_asc m d, 0 < r.2))
  ∧ (∀ st : BookState, (spread_mid st).isSome = true ↔
      ∃ bb ba, st.best_bid = some bb ∧ st.best_ask = some ba ∧ bb ≤ ba) := by
  constructor
  · intro m d hnd
    refine ⟨?_, ?_, ?_, ?_, ?_, ?_⟩
    · exact (pairwise_strict_sortDesc hnd).sublist (List.take_sublist _ _)
    · exact (pairwise_strict_sortAsc hnd).sublist (List.take_sublist _ _)
    · exact List.length_take_le _ _
    · exact List.length_take_le _ _
    · intro r hr
      exact pos_of_mem_posRows (mem_posRows_of_mem_levels_desc hr)
    · intro r hr
      exact pos_of_mem_posRows (mem_posRows_of_mem_levels_asc hr)
  · intro st
    constructor
    · intro h
      rcases hbb : st.best_bid with _ | bb
      · simp [spread_mid, hbb] at h
      · rcases hba : st.best_ask with _ | ba
        · simp [spread_mid, hbb, hba] at h
        · refine ⟨bb, ba, rfl, rfl, ?_⟩
          by_cases hle : bb ≤ ba
          · exact hle
          · simp [spread_mid, hbb, hba, hle] at h
    · rintro ⟨bb, ba, hbb, hba, hle⟩
      simp [spread_mid, hbb, hba, hle]

/-- C9 witness: the two-level example map is returned strictly sorted and
truncated, and the worked-example state has a spread/mid. -/
theorem C9_witness :
    ((posRows exMapC9).map Prod.fst).Nodup
  ∧ (levels_desc exMapC9 2).Pairwise (fun a b => b.1 < a.1)
  ∧ (levels_desc exMapC9 1).length ≤ 1
  ∧ (spread_mid exStateSnap).isSome = true := by
  have hnd : ((posRows exMapC9).map Prod.fst).Nodup := by
    with_unfolding_all decide
  obtain ⟨h1, _, _, _, _, _⟩ := (C9_read_accessor).1 exMapC9 2 hnd
  obtain ⟨_, _, h3, _, _, _⟩ := (C9_read_accessor).1 exMapC9 1 hnd
  refine ⟨hnd, h1, h3, ?_⟩
  exact ((C9_read_accessor).2 exStateSnap).mpr ⟨9/20, 11/20, rfl, rfl, by norm_num⟩

/-- C10: `_to_decimal` maps missing values, null, non-numeric strings and
wrong-typed values to 0 (it is a total function in the model); hence a
level with unparsable size is dropped from the snapshot map, and a level
with unparsable price but positive size is stored under the canonical key
"0.0000". -/
theorem C10_numeric_decoding_total :
    to_decimal .jnull = 0
  ∧ (∀ b, to_decimal (.jbool b) = 0)
  ∧ (∀ xs, to_decimal (.jlist xs) = 0)
  ∧ (∀ fs, to_decimal (.jobj fs) = 0)
  ∧ (∀ s, parseDec s = none → to_decimal (.jstr s) = 0)
  ∧ (∀ (m : SideMap) (lvl : Fields), to_decimal (getField lvl "size") ≤ 0 →
      snapLevelStep m lvl = m)
  ∧ (∀ (m : SideMap) (lvl : Fields), to_decimal (getField lvl "price") = 0 →
      0 < to_decimal (getField lvl "size") →
      snapLevelStep m lvl = insertKV m "0.0000" (to_decimal (getField lvl "size"))) := by
  refine ⟨rfl, ?_, ?_, ?_, ?_, ?_, ?_⟩
  · intro b
    cases b <;> rfl
  · intro xs
    rfl
  · intro fs
    rfl
  · intro s h
    simp [to_decimal, h]
  · intro m lvl h
    unfold snapLevelStep
    rw [if_neg (not_lt.mpr h)]
  · intro m lvl hp hs
    unfold snapLevelStep
    rw [if_pos hs, hp]
    have hk : priceKey 0 = "0.0000" := by
      with_unfolding_all rfl
    rw [hk]

/-- C10 witness: the non-numeric string "abc" decodes to 0, and a level
with unparsable price "oops" and size "5" lands under key "0.0000". -/
theorem C10_witness :
    to_decimal (.jstr "abc") = 0
  ∧ snapLevelStep [] (strLevel "oops" "5") = [("0.0000", 5)] := by
  have h5 := (C10_numeric_decoding_total).2.2.2.2.1 "abc" (by with_unfolding_all rfl)
  have h7 := (C10_numeric_decoding_total).2.2.2.2.2.2 [] (strLevel "oops" "5")
    (by with_unfolding_all rfl) (by with_unfolding_all decide)
  exact ⟨h5, h7.trans (by with_unfolding_all rfl)⟩

end Polymarket
